import Mathlib

/-!
Verification of the WAI canonical-ABI runtime support code.

The definitions below are shallow embeddings of:

* the Python intrinsics emitted by `crates/gen-wasmer-py/src/dependencies.rs`
  (`Slab`, `_clamp`, `_store`, `_load`, `_validate_guest_char`,
  `_list_canon_lift`, `_list_canon_lower`), and
* the Rust code generator in `crates/gen-wasmer/src/lib.rs`
  (`classify_fn_ret`, the match expressions emitted by
  `Instruction::VariantLift` / `Instruction::ExpectedLift`, and the checked
  narrowing conversions emitted for `Instruction::U8FromI32` and friends).

Machine integers are modelled as `Nat`/`Int` with explicit `% 2 ^ 32` masks
where the source masks with `& 0xffffffff`.  Python exceptions are modelled
with `Except`: an operation that raises returns `Except.error`, and since the
raise in the source occurs before any mutation statement, the pre-state is the
state after a raising call.
-/

namespace Wai

/-- Errors raised by the Python intrinsics.  `handleInvalid` is the
`IndexError('handle index not valid')` of `Slab.get`/`Slab.remove`;
`assertFail` models a failing Python `assert`; `bounds` the
`IndexError` of the memory intrinsics; `invalidChar` the
`TypeError('not a valid char')`; `overflow` the `OverflowError` of
`_clamp`. -/
inductive PyErr : Type where
  | handleInvalid : PyErr
  | assertFail : PyErr
  | bounds : PyErr
  | invalidChar : PyErr
  | overflow : PyErr
deriving DecidableEq, Repr

/-- One slot of the handle table, from the emitted Python class
`SlabEntry(Generic[T])`: an `int` field `next` (`-1` marks an occupied
slot) and an `Optional[T]` field `val`. -/
structure SlabEntry (T : Type) : Type where
  next : Int
  val : Option T
deriving DecidableEq, Repr

/-- The handle table, from the emitted Python class `Slab(Generic[T])`:
a growable list of entries plus the index `head` of the first free slot.
`__init__` gives `list = []`, `head = 0`. -/
structure Slab (T : Type) : Type where
  head : Int
  list : List (SlabEntry T)
deriving DecidableEq, Repr

/-- The empty slab produced by `Slab.__init__`. -/
def Slab.empty (T : Type) : Slab T := { head := 0, list := [] }

/-- Resolve a Python list index `i` against a list of length `n`
(Python indexing admits negative indices counted from the end); `none`
models the `IndexError` Python raises for an unresolvable index. -/
def pyResolve (n : Nat) (i : Int) : Option Nat :=
  if 0 ≤ i then
    if i < (n : Int) then some i.toNat else none
  else
    if 0 ≤ (n : Int) + i then some ((n : Int) + i).toNat else none

/-- `Slab.insert` from the emitted Python:
`if self.head >= len(self.list): self.list.append(SlabEntry(next = len(self.list) + 1, val = None))`;
then `ret = self.head; slot = self.list[ret]; self.head = slot.next;
slot.next = -1; slot.val = val; return ret`.  The result is the updated
slab together with the returned index; `none` models an escaping
`IndexError` from the subscript (impossible in reachable states). -/
def Slab.insert {T : Type} (s : Slab T) (val : T) : Option (Slab T × Int) :=
  let l : List (SlabEntry T) :=
    if (s.list.length : Int) ≤ s.head then
      s.list ++ [{ next := (s.list.length : Int) + 1, val := none }]
    else
      s.list
  let ret : Int := s.head
  match pyResolve l.length ret with
  | none => none
  | some j =>
    match l[j]? with
    | none => none
    | some slot =>
      some ({ head := slot.next, list := l.set j { next := -1, val := some val } }, ret)

/-- `Slab.get` from the emitted Python:
`if idx >= len(self.list): raise IndexError('handle index not valid')`;
`slot = self.list[idx]`; `if slot.next == -1: assert(slot.val is not None); return slot.val`;
`raise IndexError('handle index not valid')`.  Indices are the wire
handles, 32-bit unsigned integers, modelled as `Nat`; for a natural
index the guard `idx >= len(self.list)` holds exactly when
`self.list[idx]?` is `none`.  `get` contains no assignment statement, so
it never changes the table. -/
def Slab.get {T : Type} (s : Slab T) (idx : Nat) : Except PyErr T :=
  match s.list[idx]? with
  | none => Except.error PyErr.handleInvalid
  | some slot =>
    if slot.next = -1 then
      match slot.val with
      | some v => Except.ok v
      | none => Except.error PyErr.assertFail
    else
      Except.error PyErr.handleInvalid

/-- `Slab.remove` from the emitted Python:
`ret = self.get(idx)` (an exception here propagates before any mutation),
then `slot = self.list[idx]; slot.val = None; slot.next = self.head;
self.head = idx; return ret`. -/
def Slab.remove {T : Type} (s : Slab T) (idx : Nat) : Except PyErr (T × Slab T) :=
  match s.get idx with
  | Except.error e => Except.error e
  | Except.ok ret =>
    Except.ok (ret, { head := (idx : Int), list := s.list.set idx { next := s.head, val := none } })

/-- The table state after a call to `Slab.remove`: the mutation
statements of the source all follow the `self.get(idx)` guard, so a
raising call leaves the table exactly as it was. -/
def Slab.removeRun {T : Type} (s : Slab T) (idx : Nat) : Slab T :=
  match s.remove idx with
  | Except.ok (_, s') => s'
  | Except.error _ => s

/-- Run a sequence of `insert` calls, collecting the returned indices. -/
def Slab.insertMany {T : Type} (s : Slab T) : List T → Option (Slab T × List Int)
  | [] => some (s, [])
  | v :: vs =>
    match s.insert v with
    | none => none
    | some (s', i) =>
      match s'.insertMany vs with
      | none => none
      | some (s'', is) => some (s'', i :: is)

/-- Run a sequence of `remove` calls; `none` when any of them raises. -/
def Slab.removeMany {T : Type} (s : Slab T) : List Nat → Option (Slab T)
  | [] => some s
  | i :: is =>
    match s.remove i with
    | Except.error _ => none
    | Except.ok (_, s') => s'.removeMany is

/-- Table states reachable from the empty table by `insert`, `get` and
`remove` calls.  `get` executes no assignment and a raising `remove`
raises before its assignments, so neither produces a new state. -/
inductive Reach {T : Type} : Slab T → Prop where
  | empty : Reach (Slab.empty T)
  | insert {s s' : Slab T} {v : T} {i : Int} :
      Reach s → s.insert v = some (s', i) → Reach s'
  | remove {s s' : Slab T} {idx : Nat} {v : T} :
      Reach s → s.remove idx = Except.ok (v, s') → Reach s'

/-- `IsFreeChain l h c`: starting from `head` value `h`, the intrusive
free list threads through exactly the slot indices in `c`, each a free
slot (`next ≠ -1`, no value), and terminates at the sentinel value
`l.length`. -/
def IsFreeChain {T : Type} (l : List (SlabEntry T)) : Int → List Nat → Prop
  | h, [] => h = (l.length : Int)
  | h, i :: c =>
    h = (i : Int) ∧ ∃ e, l[i]? = some e ∧ e.next ≠ -1 ∧ e.val = none ∧ IsFreeChain l e.next c

/-- The handle-table invariant: some duplicate-free chain of slot
indices realises the free list from `head`, and a slot is occupied
(`next = -1` with a value present) exactly when it is not on the
chain. -/
def SlabInv {T : Type} (s : Slab T) : Prop :=
  ∃ c : List Nat, c.Nodup ∧ IsFreeChain s.list s.head c ∧
    ∀ j e, s.list[j]? = some e → ((e.next = -1 ∧ ∃ v, e.val = some v) ↔ j ∉ c)

/-! ### Linear-memory intrinsics

`_store`, `_load`, `_list_canon_lift` and `_list_canon_lower` from
`dependencies.rs` operate on a `wasmer.Memory` through typed views whose
elements are `bytes_per_element`-byte machine integers.  Memory is
modelled as a `List Nat` of bytes (`mem.data_size` = its length); a view
element is encoded as `bytes_per_element` consecutive bytes.  The source
uses native endianness (a noted TODO in the source); the model fixes
little-endian, which does not affect any stated property. -/

/-- Encode a value as `n` little-endian bytes (the byte pattern a typed
view element of width `n` occupies). -/
def encodeLE : Nat → Nat → List Nat
  | 0, _ => []
  | n + 1, v => (v % 256) :: encodeLE n (v / 256)

/-- Decode little-endian bytes back into a value. -/
def decodeLE : List Nat → Nat
  | [] => 0
  | b :: bs => b + 256 * decodeLE bs

/-- Python slice assignment `mem[s : s + len(xs)] = xs`. -/
def setSlice (mem : List Nat) (s : Nat) (xs : List Nat) : List Nat :=
  mem.take s ++ xs ++ mem.drop (s + xs.length)

/-- Python slice read `mem[s : s + n]`. -/
def getSlice (mem : List Nat) (s n : Nat) : List Nat :=
  (mem.drop s).take n

/-- Write the elements `xs` through a view of `e`-byte elements starting
at view index `vp` (the slice assignment `view[view_ptr:view_ptr+len(list)] = list`). -/
def viewWrite (e : Nat) (mem : List Nat) (vp : Nat) (xs : List Nat) : List Nat :=
  setSlice mem (vp * e) ((xs.map (encodeLE e)).flatten)

/-- Read `n` elements through a view of `e`-byte elements starting at
view index `vp` (the slice read `view[view_ptr:view_ptr+len]`). -/
def viewRead (e : Nat) (mem : List Nat) (vp n : Nat) : List Nat :=
  (List.range n).map (fun i => decodeLE (getSlice mem ((vp + i) * e) e))

/-- `_store` from `dependencies.rs`:
`ptr = (base & 0xffffffff) + offset`; make the view;
`if ptr + view.bytes_per_element > mem.data_size: raise IndexError('out-of-bounds store')`;
`view_ptr = ptr // view.bytes_per_element; view[view_ptr] = val`.
`e` is `bytes_per_element` of the view built by `make_view`. -/
def pyStore (e : Nat) (mem : List Nat) (base offset val : Nat) : Except PyErr (List Nat) :=
  let ptr := base % 2 ^ 32 + offset
  if ptr + e > mem.length then Except.error PyErr.bounds
  else Except.ok (viewWrite e mem (ptr / e) [val])

/-- `_load` from `dependencies.rs`:
`ptr = (base & 0xffffffff) + offset`; make the view;
`if ptr + view.bytes_per_element > mem.data_size: raise IndexError('out-of-bounds load')`;
`view_ptr = ptr // view.bytes_per_element; return view[view_ptr]`. -/
def pyLoad (e : Nat) (mem : List Nat) (base offset : Nat) : Except PyErr Nat :=
  let ptr := base % 2 ^ 32 + offset
  if ptr + e > mem.length then Except.error PyErr.bounds
  else Except.ok (decodeLE (getSlice mem ((ptr / e) * e) e))

/-- `_list_canon_lower` from `dependencies.rs`:
`total_size = size * len(list)`; `ptr = realloc(0, 0, align, total_size)`
(the pointer produced by the guest allocator is the parameter `ptr0`, and
`mem` is the memory at that moment); `ptr = ptr & 0xffffffff`;
`if ptr + total_size > mem.data_size: raise IndexError(...)`;
`view_ptr = ptr // view.bytes_per_element`;
`view[view_ptr:view_ptr + len(list)] = list; return (ptr, len(list))`.
The result is the written memory plus the returned pair. -/
def listCanonLower (e : Nat) (l : List Nat) (ptr0 : Nat) (mem : List Nat) :
    Except PyErr (List Nat × Nat × Nat) :=
  let total := e * l.length
  let ptr := ptr0 % 2 ^ 32
  if ptr + total > mem.length then Except.error PyErr.bounds
  else Except.ok (viewWrite e mem (ptr / e) l, ptr, l.length)

/-- `_list_canon_lift` from `dependencies.rs`:
`ptr = ptr & 0xffffffff; len = len & 0xffffffff`;
`if ptr + len * size > mem.data_size: raise IndexError('list out of bounds')`;
`view_ptr = ptr // view.bytes_per_element`;
`return view[view_ptr:view_ptr + len]` (for `Uint8Array` wrapped into a
`bytearray`, the same sequence of element values). -/
def listCanonLift (e : Nat) (ptr0 len0 : Nat) (mem : List Nat) : Except PyErr (List Nat) :=
  let ptr := ptr0 % 2 ^ 32
  let len := len0 % 2 ^ 32
  if ptr + len * e > mem.length then Except.error PyErr.bounds
  else Except.ok (viewRead e mem (ptr / e) len)

/-! ### Scalar validation intrinsics -/

/-- `_validate_guest_char` from `dependencies.rs`:
`if i > 0x10ffff or (i >= 0xd800 and i <= 0xdfff): raise TypeError('not a valid char')`;
`return chr(i)`.  The input is the 32-bit wire scalar (unsigned, hence
`Nat`); the returned `chr(i)` is represented by its code point. -/
def validateGuestChar (i : Nat) : Except PyErr Nat :=
  if i > 0x10ffff ∨ (i ≥ 0xd800 ∧ i ≤ 0xdfff) then Except.error PyErr.invalidChar
  else Except.ok i

/-- `_clamp` from `dependencies.rs`:
`if i < min or i > max: raise OverflowError(...)`; `return i`. -/
def pyClamp (i lo hi : Int) : Except PyErr Int :=
  if i < lo ∨ i > hi then Except.error PyErr.overflow
  else Except.ok i

/-! ### Semantics of code emitted by `crates/gen-wasmer/src/lib.rs`

The Rust generator emits source text; the definitions below embed the
runtime semantics of the emitted expressions, one per cited emission
site. -/

/-- Errors of the emitted Rust runtime: `bad_int` from the checked
narrowing conversions, `invalid_variant` from discriminant dispatch. -/
inductive RtErr : Type where
  | badInt : RtErr
  | invalidVariant : RtErr
deriving DecidableEq, Repr

/-- Semantics of `{ty}::try_from({operand}).map_err(bad_int)?` emitted
for `Instruction::S8FromI32` / `U8FromI32` / `S16FromI32` / `U16FromI32`
(lib.rs:1572, 1620-1623): Rust `try_from` on integers succeeds, with the
value unchanged, exactly when the source value lies in the destination
range `[lo, hi]`. -/
def tryFromRange (lo hi : Int) (x : Int) : Except RtErr Int :=
  if lo ≤ x ∧ x ≤ hi then Except.ok x else Except.error RtErr.badInt

/-- `Instruction::U8FromI32`: `u8::try_from(x).map_err(bad_int)?`. -/
def u8FromI32 : Int → Except RtErr Int := tryFromRange 0 255

/-- `Instruction::S8FromI32`: `i8::try_from(x).map_err(bad_int)?`. -/
def s8FromI32 : Int → Except RtErr Int := tryFromRange (-128) 127

/-- `Instruction::U16FromI32`: `u16::try_from(x).map_err(bad_int)?`. -/
def u16FromI32 : Int → Except RtErr Int := tryFromRange 0 65535

/-- `Instruction::S16FromI32`: `i16::try_from(x).map_err(bad_int)?`. -/
def s16FromI32 : Int → Except RtErr Int := tryFromRange (-32768) 32767

/-- The two-case result type `Expected` (Rust `Result`, Python
`Union[Ok[T], Err[E]]`). -/
inductive Expected (T E : Type) : Type where
  | ok (v : T) : Expected T E
  | err (e : E) : Expected T E
deriving DecidableEq, Repr

/-- Semantics of the match emitted by `Instruction::VariantLift`
(lib.rs:1786-1807): `match op0 { 0 => Name::Case0(block0), ...,
k-1 => Name::Casek1(blockk1), _ => return Err(invalid_variant(..)) }`.
`cases` holds, per case index, the lifted-case block as a function of
the raw payload operands; the discriminant is the i32 operand `d`. -/
def variantLift {Op β : Type} (cases : List (Op → β)) (d : Int) (p : Op) : Except RtErr β :=
  if h : 0 ≤ d ∧ d.toNat < cases.length then
    Except.ok (cases.get ⟨d.toNat, h.2⟩ p)
  else
    Except.error RtErr.invalidVariant

/-- Semantics of the match emitted by `Instruction::ExpectedLift`
(lib.rs:1903-1915): `match op0 { 0 => Ok(ok_block), 1 => Err(err_block),
_ => return Err(invalid_variant("expected")) }`. -/
def expectedLift {PO PE T E : Type} (okBlock : PO → T) (errBlock : PE → E)
    (d : Int) (pok : PO) (perr : PE) : Except RtErr (Expected T E) :=
  if d = 0 then Except.ok (Expected.ok (okBlock pok))
  else if d = 1 then Except.ok (Expected.err (errBlock perr))
  else Except.error RtErr.invalidVariant

/-! ### Host-failure classification (`classify_fn_ret`) -/

/-- Interface types, as consumed by the generator (the parser's `Type`
enum): primitive scalars, strings, handles, or a reference `id` into the
interface's type-definition arena.  `classify_fn_ret` inspects only the
`id` constructor. -/
inductive WaiType : Type where
  | unit | bool | u8 | u16 | u32 | u64 | s8 | s16 | s32 | s64
  | f32 | f64 | char | text
  | handle (resource : Nat)
  | id (ty : Nat)
deriving DecidableEq, Repr

/-- A type definition's kind: `Expected { ok, err }` or any of the other
type constructors (irrelevant to classification, folded into `other`). -/
inductive TypeDefKind : Type where
  | expected (ok : WaiType) (err : WaiType)
  | other
deriving DecidableEq, Repr

/-- An entry of the interface's type arena: its kind and optional name. -/
structure TypeDef : Type where
  kind : TypeDefKind
  name : Option String
deriving DecidableEq, Repr

/-- `FunctionRet` from `crates/gen-wasmer/src/lib.rs`. -/
inductive FunctionRet : Type where
  | normal : FunctionRet
  | customToError (ok : WaiType) (err : String) : FunctionRet
  | customToTrap : FunctionRet
deriving DecidableEq, Repr

/-- `Wasmer::classify_fn_ret` (lib.rs:205-226): with `custom_error`
disabled, every function is `Normal`; otherwise a function whose result
is `Type::Id` of an `Expected` whose `err` is a named type definition is
`CustomToError { ok, err: name }`, and every other function is
`CustomToTrap`.  The arena is total (`iface.types[id]` indexing never
fails for resolved interfaces). -/
def classify_fn_ret (customError : Bool) (types : Nat → TypeDef) (result : WaiType) :
    FunctionRet :=
  if customError = false then FunctionRet.normal
  else
    match result with
    | WaiType.id i =>
      match (types i).kind with
      | TypeDefKind.expected ok err =>
        match err with
        | WaiType.id j =>
          match (types j).name with
          | some n => FunctionRet.customToError ok n
          | none => FunctionRet.customToTrap
        | _ => FunctionRet.customToTrap
      | TypeDefKind.other => FunctionRet.customToTrap
    | _ => FunctionRet.customToTrap

/-- Outcome of one host call as seen by the guest-side caller: a plain
value, a value in the function's declared `expected` error channel, or a
trap aborting the call. -/
inductive CallResult (V E : Type) : Type where
  | value (v : V) : CallResult V E
  | channel (r : Expected V E) : CallResult V E
  | trap : CallResult V E
deriving DecidableEq, Repr

/-- Semantics of the `FunctionRet::CustomToTrap` arm emitted by
`Instruction::CallInterface` (lib.rs:2243-2250):
`match call { Ok(val) => val, Err(e) => return Err(host.error_to_trap(e)) }`. -/
def routeToTrap {V E H : Type} (r : Except H V) : CallResult V E :=
  match r with
  | Except.ok v => CallResult.value v
  | Except.error _ => CallResult.trap

/-- Semantics of the `FunctionRet::CustomToError` arm emitted by
`Instruction::CallInterface` (lib.rs:2254-2261):
`match call { Ok(val) => Ok(val), Err(e) => Err(host.error_to_X(e)?) }`,
with `conv` the host's `error_to_X` conversion into the declared error
type. -/
def routeToError {V E H : Type} (conv : H → E) (r : Except H V) : CallResult V E :=
  match r with
  | Except.ok v => CallResult.channel (Expected.ok v)
  | Except.error e => CallResult.channel (Expected.err (conv e))

end Wai


namespace Wai

/-! ### Handle-table lemmas -/

theorem Slab.get_ok_iff {T : Type} (s : Slab T) (idx : Nat) (v : T) :
    s.get idx = Except.ok v ↔
      ∃ e, s.list[idx]? = some e ∧ e.next = -1 ∧ e.val = some v := by
  unfold Slab.get
  cases hidx : s.list[idx]? with
  | none => simp
  | some slot =>
    by_cases hnext : slot.next = -1
    · cases hval : slot.val with
      | none => simp [hnext, hval]
      | some w =>
        simp only [hnext, if_pos, hval]
        constructor
        · intro h; cases h; exact ⟨slot, rfl, hnext, hval⟩
        · rintro ⟨e, he, -, hv⟩
          cases he; rw [hval] at hv; cases hv; rfl
    · simp [hnext]

theorem Slab.get_handleInvalid_iff {T : Type} (s : Slab T) (idx : Nat) :
    s.get idx = Except.error PyErr.handleInvalid ↔
      s.list.length ≤ idx ∨ ∃ e, s.list[idx]? = some e ∧ e.next ≠ -1 := by
  unfold Slab.get
  cases hidx : s.list[idx]? with
  | none =>
    have hlen : s.list.length ≤ idx := by
      by_contra hc
      push_neg at hc
      rw [List.getElem?_eq_getElem hc] at hidx
      cases hidx
    simp [hlen]
  | some slot =>
    have hlt : idx < s.list.length := by
      by_contra hc
      push_neg at hc
      rw [List.getElem?_eq_none hc] at hidx
      cases hidx
    by_cases hnext : slot.next = -1
    · cases hval : slot.val with
      | none => simp [hnext, hval, Nat.not_le_of_lt hlt, hidx]
      | some w => simp [hnext, hval, Nat.not_le_of_lt hlt, hidx]
    · simp [hnext, Nat.not_le_of_lt hlt, hidx]

theorem Slab.remove_err_iff {T : Type} (s : Slab T) (idx : Nat) (e : PyErr) :
    s.remove idx = Except.error e ↔ s.get idx = Except.error e := by
  unfold Slab.remove
  cases hg : s.get idx <;> simp

theorem Slab.remove_ok_iff {T : Type} (s : Slab T) (idx : Nat) (v : T) (s' : Slab T) :
    s.remove idx = Except.ok (v, s') ↔
      s.get idx = Except.ok v ∧
        s' = { head := (idx : Int), list := s.list.set idx { next := s.head, val := none } } := by
  unfold Slab.remove
  cases hg : s.get idx with
  | error er => simp
  | ok w =>
    simp only [Except.ok.injEq, Prod.mk.injEq]
    constructor
    · rintro ⟨rfl, rfl⟩; exact ⟨rfl, rfl⟩
    · rintro ⟨hw, rfl⟩; cases hw; exact ⟨rfl, rfl⟩

theorem Slab.insert_fresh {T : Type} (s : Slab T) (v : T)
    (h : s.head = (s.list.length : Int)) :
    s.insert v = some ({ head := (s.list.length : Int) + 1,
                         list := s.list ++ [{ next := -1, val := some v }] },
                       (s.list.length : Int)) := by
  unfold Slab.insert
  rw [h]
  have hcond : ((s.list.length : Int) ≤ (s.list.length : Int)) = True := by simp
  have hres : pyResolve (s.list ++ [({ next := (s.list.length : Int) + 1, val := none } : SlabEntry T)]).length ((s.list.length : Int)) = some s.list.length := by
    simp [pyResolve]
  simp only [hcond, if_true, hres]
  have hget : (s.list ++ [({ next := (s.list.length : Int) + 1, val := none } : SlabEntry T)])[s.list.length]? = some { next := (s.list.length : Int) + 1, val := none } := by
    simp
  rw [hget]
  have hset : (s.list ++ [({ next := (s.list.length : Int) + 1, val := none } : SlabEntry T)]).set s.list.length { next := -1, val := some v } = s.list ++ [{ next := -1, val := some v }] := by
    rw [List.set_append_right] <;> simp
  simp [hset]

theorem Slab.insert_reuse {T : Type} (s : Slab T) (v : T) (r : Nat) (e : SlabEntry T)
    (hh : s.head = (r : Int)) (he : s.list[r]? = some e) :
    s.insert v = some ({ head := e.next, list := s.list.set r { next := -1, val := some v } },
                       (r : Int)) := by
  have hr : r < s.list.length := by
    by_contra hc
    push_neg at hc
    rw [List.getElem?_eq_none hc] at he
    cases he
  unfold Slab.insert
  rw [hh]
  have hcond : ¬ ((s.list.length : Int) ≤ (r : Int)) := by
    push_neg
    exact_mod_cast hr
  rw [if_neg hcond]
  have hres : pyResolve s.list.length ((r : Int)) = some r := by
    simp [pyResolve, hr]
  simp only [hres, he]

theorem Slab.removeMany_preserves {T : Type} (rs : List Nat) :
    ∀ (s s' : Slab T), s.removeMany rs = some s' →
      ∀ j e, s.list[j]? = some e → (e.next ≠ -1 ∨ e.val = none) →
        s'.list[j]? = some e ∧ j ∉ rs := by
  induction rs with
  | nil =>
    intro s s' h j e hj hfree
    simp only [Slab.removeMany, Option.some.injEq] at h
    subst h
    exact ⟨hj, by simp⟩
  | cons i is ih =>
    intro s s' h j e hj hfree
    simp only [Slab.removeMany] at h
    cases hr : s.remove i with
    | error er => rw [hr] at h; cases h
    | ok p =>
      obtain ⟨v, s1⟩ := p
      rw [hr] at h
      rw [Slab.remove_ok_iff] at hr
      obtain ⟨hget, hs1⟩ := hr
      rw [Slab.get_ok_iff] at hget
      obtain ⟨ei, hei, heinext, heival⟩ := hget
      have hij : i ≠ j := by
        intro heq
        subst heq
        rw [hei] at hj
        cases hj
        rcases hfree with hf | hf
        · exact hf heinext
        · rw [heival] at hf; cases hf
      have hj1 : s1.list[j]? = some e := by
        subst hs1
        simpa [List.getElem?_set_ne hij] using hj
      have hrec := ih s1 s' h j e hj1 hfree
      refine ⟨hrec.1, ?_⟩
      simp only [List.mem_cons, not_or]
      exact ⟨fun heq => hij heq.symm, hrec.2⟩

theorem Slab.insertMany_append {T : Type} (xs : List T) :
    ∀ (ys : List T) (s s1 s2 : Slab T) (is js : List Int),
      s.insertMany xs = some (s1, is) → s1.insertMany ys = some (s2, js) →
      s.insertMany (xs ++ ys) = some (s2, is ++ js) := by
  induction xs with
  | nil =>
    intro ys s s1 s2 is js h1 h2
    simp only [Slab.insertMany, Option.some.injEq, Prod.mk.injEq] at h1
    obtain ⟨rfl, rfl⟩ := h1
    simpa using h2
  | cons x xs ih =>
    intro ys s s1 s2 is js h1 h2
    simp only [Slab.insertMany] at h1
    cases hx : s.insert x with
    | none => rw [hx] at h1; cases h1
    | some p =>
      obtain ⟨sa, i⟩ := p
      rw [hx] at h1
      dsimp only at h1
      cases hxs : sa.insertMany xs with
      | none => rw [hxs] at h1; cases h1
      | some q =>
        obtain ⟨sb, ks⟩ := q
        rw [hxs] at h1
        simp only [Option.some.injEq, Prod.mk.injEq] at h1
        obtain ⟨rfl, rfl⟩ := h1
        have := ih ys sa sb s2 ks js hxs h2
        simp only [List.cons_append, Slab.insertMany, hx]
        rw [List.append_eq, this]

theorem Slab.insertMany_length {T : Type} (vs : List T) :
    ∀ (s s' : Slab T) (is : List Int), s.insertMany vs = some (s', is) →
      is.length = vs.length := by
  induction vs with
  | nil =>
    intro s s' is h
    simp only [Slab.insertMany, Option.some.injEq, Prod.mk.injEq] at h
    obtain ⟨-, rfl⟩ := h
    rfl
  | cons x xs ih =>
    intro s s' is h
    simp only [Slab.insertMany] at h
    cases hx : s.insert x with
    | none => rw [hx] at h; cases h
    | some p =>
      obtain ⟨sa, i⟩ := p
      rw [hx] at h
      dsimp only at h
      cases hxs : sa.insertMany xs with
      | none => rw [hxs] at h; cases h
      | some q =>
        obtain ⟨sb, ks⟩ := q
        rw [hxs] at h
        simp only [Option.some.injEq, Prod.mk.injEq] at h
        obtain ⟨-, rfl⟩ := h
        simp [ih sa sb ks hxs]

theorem Slab.removeMany_then_insertMany {T : Type} (rs : List Nat) :
    ∀ (s s' : Slab T) (vals : List T),
      s.removeMany rs = some s' → vals.length = rs.length →
      ∃ s'' : Slab T,
        s'.insertMany vals = some (s'', rs.reverse.map Int.ofNat) ∧
        s''.head = s.head ∧ s''.list.length = s.list.length ∧
        ∀ j, j ∉ rs → s''.list[j]? = s.list[j]? := by
  induction rs with
  | nil =>
    intro s s' vals h hlen
    simp only [Slab.removeMany, Option.some.injEq] at h
    subst h
    have hv : vals = [] := List.length_eq_zero.mp hlen
    subst hv
    exact ⟨s, by simp [Slab.insertMany], rfl, rfl, fun j _ => rfl⟩
  | cons r rs ih =>
    intro s s' vals h hlen
    simp only [Slab.removeMany] at h
    cases hr : s.remove r with
    | error er => rw [hr] at h; cases h
    | ok p =>
      obtain ⟨v, s1⟩ := p
      rw [hr] at h
      have hne : vals ≠ [] := by
        intro hv
        subst hv
        simp at hlen
      obtain ⟨vs, w, rfl⟩ : ∃ vs w, vals = vs ++ [w] :=
        ⟨vals.dropLast, vals.getLast hne, (List.dropLast_append_getLast hne).symm⟩
      have hlen' : vs.length = rs.length := by
        simp only [List.length_append, List.length_cons, List.length_nil] at hlen
        omega
      obtain ⟨s2, hins, hhead, hlen2, hout⟩ := ih s1 s' vs h hlen'
      rw [Slab.remove_ok_iff] at hr
      obtain ⟨hget, hs1⟩ := hr
      rw [Slab.get_ok_iff] at hget
      obtain ⟨er, her, hernext, herval⟩ := hget
      have hrlen : r < s.list.length := by
        by_contra hc
        push_neg at hc
        rw [List.getElem?_eq_none hc] at her
        cases her
      have hs1r : s1.list[r]? = some { next := s.head, val := none } := by
        subst hs1
        simp only
        rw [List.getElem?_set_self]
        simp [hrlen]
      have hpres := Slab.removeMany_preserves rs s1 s' h r _ hs1r (Or.inr rfl)
      have hrnotin : r ∉ rs := hpres.2
      have hs2r : s2.list[r]? = some { next := s.head, val := none } := by
        rw [hout r hrnotin]
        exact hs1r
      have hhead2 : s2.head = (r : Int) := by
        rw [hhead, hs1]
      have hins2 := Slab.insert_reuse s2 w r _ hhead2 hs2r
      have hsingle : s2.insertMany [w] =
          some ({ head := s.head, list := s2.list.set r { next := -1, val := some w } },
                [(r : Int)]) := by
        simp [Slab.insertMany, hins2]
      refine ⟨{ head := s.head, list := s2.list.set r { next := -1, val := some w } }, ?_, rfl, ?_, ?_⟩
      · have happ := Slab.insertMany_append vs [w] s' s2 _ _ _ hins hsingle
        rw [happ]
        simp
      · simp only [List.length_set]
        rw [hlen2, hs1]
        simp
      · intro j hj
        simp only [List.mem_cons, not_or] at hj
        obtain ⟨hjr, hjs⟩ := hj
        have hrj : r ≠ j := fun heq => hjr heq.symm
        simp only [List.getElem?_set_ne hrj]
        rw [hout j hjs, hs1]
        simp only
        rw [List.getElem?_set_ne hrj]

/-! ### Free-chain lemmas -/

theorem IsFreeChain.congr {T : Type} (c : List Nat) :
    ∀ (l l' : List (SlabEntry T)) (h : Int),
      IsFreeChain l h c → l'.length = l.length →
      (∀ j, j ∈ c → l'[j]? = l[j]?) → IsFreeChain l' h c := by
  induction c with
  | nil =>
    intro l l' h hc hlen hagree
    simp only [IsFreeChain] at hc ⊢
    rw [hlen]
    exact hc
  | cons i c ih =>
    intro l l' h hc hlen hagree
    simp only [IsFreeChain] at hc ⊢
    obtain ⟨hh, e, he, hnext, hval, hrest⟩ := hc
    refine ⟨hh, e, ?_, hnext, hval, ?_⟩
    · rw [hagree i (by simp)]
      exact he
    · exact ih l l' e.next hrest hlen (fun j hj => hagree j (by simp [hj]))

theorem IsFreeChain.head_nonneg {T : Type} {l : List (SlabEntry T)} {h : Int} {c : List Nat}
    (hc : IsFreeChain l h c) : 0 ≤ h := by
  cases c with
  | nil =>
    simp only [IsFreeChain] at hc
    omega
  | cons i cs =>
    simp only [IsFreeChain] at hc
    omega

theorem IsFreeChain.head_le {T : Type} {l : List (SlabEntry T)} {h : Int} {c : List Nat}
    (hc : IsFreeChain l h c) : h ≤ (l.length : Int) := by
  cases c with
  | nil =>
    simp only [IsFreeChain] at hc
    omega
  | cons i cs =>
    simp only [IsFreeChain] at hc
    obtain ⟨hh, e, he, -⟩ := hc
    have hi : i < l.length := by
      by_contra hcon
      push_neg at hcon
      rw [List.getElem?_eq_none hcon] at he
      cases he
    omega

theorem IsFreeChain.mem_free {T : Type} (c : List Nat) :
    ∀ (l : List (SlabEntry T)) (h : Int) (j : Nat),
      IsFreeChain l h c → j ∈ c →
      ∃ e, l[j]? = some e ∧ e.next ≠ -1 ∧ e.val = none := by
  induction c with
  | nil =>
    intro l h j hc hj
    cases hj
  | cons i c ih =>
    intro l h j hc hj
    simp only [IsFreeChain] at hc
    obtain ⟨hh, e, he, hnext, hval, hrest⟩ := hc
    rcases List.mem_cons.mp hj with rfl | hj
    · exact ⟨e, he, hnext, hval⟩
    · exact ih l e.next j hrest hj

/-! ### Invariant preservation -/

theorem slabInv_empty {T : Type} : SlabInv (Slab.empty T) := by
  refine ⟨[], List.nodup_nil, ?_, ?_⟩
  · simp [IsFreeChain, Slab.empty]
  · intro j e hj
    simp [Slab.empty] at hj

theorem slabInv_insert {T : Type} (s : Slab T) (v : T) (hinv : SlabInv s) :
    ∃ (s' : Slab T) (i : Int),
      s.insert v = some (s', i) ∧ SlabInv s' ∧
      (i = (s.list.length : Int) ∨
        (0 ≤ i ∧ i < (s.list.length : Int) ∧
          ∃ e, s.list[i.toNat]? = some e ∧ e.next ≠ -1 ∧ e.val = none)) := by
  obtain ⟨c, hnd, hchain, hocc⟩ := hinv
  cases c with
  | nil =>
    have hh : s.head = (s.list.length : Int) := by
      simpa [IsFreeChain] using hchain
    refine ⟨_, _, Slab.insert_fresh s v hh, ?_, Or.inl rfl⟩
    refine ⟨[], List.nodup_nil, ?_, ?_⟩
    · simp [IsFreeChain]
    · intro j e hj
      simp only [List.not_mem_nil, not_false_iff, iff_true]
      by_cases hlt : j < s.list.length
      · rw [List.getElem?_append, if_pos hlt] at hj
        have := (hocc j e hj).mpr (by simp)
        exact this
      · push_neg at hlt
        have hj' : j = s.list.length := by
          have hjlt : j < s.list.length + 1 := by
            by_contra hcon
            push_neg at hcon
            rw [List.getElem?_eq_none (by simpa using hcon)] at hj
            cases hj
          omega
        subst hj'
        simp only [List.getElem?_append_right (Nat.le_refl _)] at hj
        simp at hj
        subst hj
        exact ⟨rfl, v, rfl⟩
  | cons r c =>
    simp only [IsFreeChain] at hchain
    obtain ⟨hh, e, he, hnext, hval, hrest⟩ := hchain
    have hrlt : r < s.list.length := by
      by_contra hcon
      push_neg at hcon
      rw [List.getElem?_eq_none hcon] at he
      cases he
    have hnodup := List.nodup_cons.mp hnd
    refine ⟨_, _, Slab.insert_reuse s v r e hh he, ?_, Or.inr ?_⟩
    · refine ⟨c, hnodup.2, ?_, ?_⟩
      · apply IsFreeChain.congr c s.list _ e.next hrest
        · simp
        · intro j hj
          have hne : r ≠ j := fun hrj => hnodup.1 (hrj ▸ hj)
          exact List.getElem?_set_ne hne
      · intro j f hj
        by_cases hjr : j = r
        · subst hjr
          rw [List.getElem?_set_self (by simpa using hrlt)] at hj
          simp only [Option.some.injEq] at hj
          subst hj
          constructor
          · intro _
            exact hnodup.1
          · intro _
            exact ⟨rfl, v, rfl⟩
        · rw [List.getElem?_set_ne (fun hrj => hjr hrj.symm)] at hj
          have := hocc j f hj
          simp only [List.mem_cons, not_or] at this
          constructor
          · intro hoccj
            exact ((this.mp hoccj).2)
          · intro hjc
            exact this.mpr ⟨fun hjr2 => hjr hjr2, hjc⟩
    · refine ⟨by omega, by exact_mod_cast hrlt, e, ?_, hnext, hval⟩
      simpa using he

theorem slabInv_remove {T : Type} (s s' : Slab T) (idx : Nat) (v : T)
    (hinv : SlabInv s) (h : s.remove idx = Except.ok (v, s')) : SlabInv s' := by
  rw [Slab.remove_ok_iff] at h
  obtain ⟨hget, rfl⟩ := h
  rw [Slab.get_ok_iff] at hget
  obtain ⟨e, he, hnext, hval⟩ := hget
  obtain ⟨c, hnd, hchain, hocc⟩ := hinv
  have hidxlt : idx < s.list.length := by
    by_contra hcon
    push_neg at hcon
    rw [List.getElem?_eq_none hcon] at he
    cases he
  have hidxnot : idx ∉ c := (hocc idx e he).mp ⟨hnext, v, hval⟩
  have hheadnn : 0 ≤ s.head := hchain.head_nonneg
  refine ⟨idx :: c, List.nodup_cons.mpr ⟨hidxnot, hnd⟩, ?_, ?_⟩
  · simp only [IsFreeChain]
    refine ⟨by trivial, { next := s.head, val := none }, ?_, ?_, rfl, ?_⟩
    · rw [List.getElem?_set_self hidxlt]
    · show s.head ≠ -1
      omega
    · apply IsFreeChain.congr c s.list _ s.head hchain
      · simp
      · intro j hj
        have hne : idx ≠ j := fun hij => hidxnot (hij ▸ hj)
        exact List.getElem?_set_ne hne
  · intro j f hj
    by_cases hjr : j = idx
    · subst hjr
      rw [List.getElem?_set_self (by simpa using hidxlt)] at hj
      simp only [Option.some.injEq] at hj
      subst hj
      simp
    · rw [List.getElem?_set_ne (fun hij => hjr hij.symm)] at hj
      have := hocc j f hj
      simp only [List.mem_cons, not_or]
      constructor
      · intro hoccj
        exact ⟨hjr, this.mp hoccj⟩
      · intro hjc
        exact this.mpr hjc.2

theorem reach_slabInv {T : Type} (s : Slab T) (h : Reach s) : SlabInv s := by
  induction h with
  | empty => exact slabInv_empty
  | insert hr hins ih =>
    obtain ⟨s2, i2, hins2, hinv2, -⟩ := slabInv_insert _ _ ih
    rw [hins] at hins2
    cases hins2
    exact hinv2
  | remove hr hrem ih =>
    exact slabInv_remove _ _ _ _ ih hrem

/-! ### Claim theorems: handle table -/

/-- C1: freed handle-table indices are reused in last-in-first-out
order.  After inserting a batch of values (receiving indices `idxs`) and
then removing all of them (in any order `rs` that is a permutation of
`idxs`), inserting equally many new values returns exactly the reversed
removal order — each insert reuses the most recently freed index first —
and hence exactly the same set of indices as the first batch. -/
theorem slab_lifo_reuse {T : Type} (s s1 s2 : Slab T) (vs1 vs2 : List T)
    (idxs : List Int) (rs : List Nat)
    (h1 : s.insertMany vs1 = some (s1, idxs))
    (h2 : s1.removeMany rs = some s2)
    (hperm : (rs.map Int.ofNat).Perm idxs)
    (hlen : vs2.length = vs1.length) :
    ∃ s3 : Slab T,
      s2.insertMany vs2 = some (s3, rs.reverse.map Int.ofNat) ∧
      (rs.reverse.map Int.ofNat).Perm idxs := by
  have hl1 : idxs.length = vs1.length := Slab.insertMany_length vs1 s s1 idxs h1
  have hlrs : rs.length = idxs.length := by
    have := hperm.length_eq
    rwa [List.length_map] at this
  have hlen' : vs2.length = rs.length := by omega
  obtain ⟨s3, hins, -, -, -⟩ := Slab.removeMany_then_insertMany rs s1 s2 vs2 h2 hlen'
  refine ⟨s3, hins, ?_⟩
  exact (List.Perm.map Int.ofNat (List.reverse_perm rs)).trans hperm

/-- Witness for C1: the spec's concrete handle-table scenario.  The
general theorem is applied to insert ["x","y"] (indices 0,1), remove
both, insert ["z","w"] (indices 1,0 — reversed removal order, same set);
the remaining conjuncts evaluate the spec's literal trace
insert("x")=0, insert("y")=1, remove(0), insert("z")=0, get(1)="y". -/
theorem slab_lifo_reuse_witness :
    ((Slab.empty String).insertMany ["x", "y"] =
      some ({ head := 2,
              list := [{ next := -1, val := some "x" }, { next := -1, val := some "y" }] },
            [0, 1])) ∧
    (Slab.removeMany
        { head := 2,
          list := [{ next := -1, val := some "x" }, { next := -1, val := some "y" }] }
        [0, 1] =
      some { head := 1, list := [{ next := 2, val := none }, { next := 0, val := none }] }) ∧
    (∃ s3 : Slab String,
      Slab.insertMany
          { head := 1, list := [{ next := 2, val := none }, { next := 0, val := none }] }
          ["z", "w"] =
        some (s3, ([0, 1] : List Nat).reverse.map Int.ofNat) ∧
      ((([0, 1] : List Nat)).reverse.map Int.ofNat).Perm [0, 1]) ∧
    ((Slab.empty String).insert "x" =
      some ({ head := 1, list := [{ next := -1, val := some "x" }] }, 0)) ∧
    (Slab.insert { head := 1, list := [{ next := -1, val := some "x" }] } "y" =
      some ({ head := 2,
              list := [{ next := -1, val := some "x" }, { next := -1, val := some "y" }] },
            1)) ∧
    (Slab.remove
        { head := 2,
          list := [{ next := -1, val := some "x" }, { next := -1, val := some "y" }] }
        0 =
      Except.ok ("x",
        { head := 0, list := [{ next := 2, val := none }, { next := -1, val := some "y" }] })) ∧
    (Slab.insert
        { head := 0, list := [{ next := 2, val := none }, { next := -1, val := some "y" }] }
        "z" =
      some ({ head := 2,
              list := [{ next := -1, val := some "z" }, { next := -1, val := some "y" }] },
            0)) ∧
    (Slab.get
        { head := 2,
          list := [{ next := -1, val := some "z" }, { next := -1, val := some "y" }] }
        1 =
      Except.ok "y") := by
  refine ⟨by rfl, by rfl, ?_, by rfl, by rfl, by rfl, by rfl, by rfl⟩
  exact slab_lifo_reuse (Slab.empty String) _ _ ["x", "y"] ["z", "w"] [0, 1] [0, 1]
    (by rfl) (by rfl) (by decide) (by rfl)

/-- C6: `get(i)` returns the stored value exactly when slot `i` exists
and is occupied (`next = -1`, value present), and fails with the
handle-invalid error when `i` is out of range or slot `i` is free;
`remove(i)` fails with handle-invalid under exactly the same condition,
and otherwise returns the stored value and frees the slot (value
cleared, `next` pointing at the old head, `head` set to `i`). -/
theorem slab_get_remove_spec {T : Type} (s : Slab T) (idx : Nat) :
    (∀ v : T, s.get idx = Except.ok v ↔
      ∃ e, s.list[idx]? = some e ∧ e.next = -1 ∧ e.val = some v) ∧
    (s.get idx = Except.error PyErr.handleInvalid ↔
      s.list.length ≤ idx ∨ ∃ e, s.list[idx]? = some e ∧ e.next ≠ -1) ∧
    (s.remove idx = Except.error PyErr.handleInvalid ↔
      s.get idx = Except.error PyErr.handleInvalid) ∧
    (∀ v : T, s.get idx = Except.ok v →
      s.remove idx = Except.ok (v,
        { head := (idx : Int), list := s.list.set idx { next := s.head, val := none } })) := by
  refine ⟨fun v => Slab.get_ok_iff s idx v, Slab.get_handleInvalid_iff s idx,
    Slab.remove_err_iff s idx PyErr.handleInvalid, fun v hv => ?_⟩
  rw [Slab.remove_ok_iff]
  exact ⟨hv, rfl⟩

/-- Witness for C6: on the table `{head 0, [free(next 2), occupied "y"]}`,
`get 1` yields `"y"`, `get 0` (free slot) and `remove 5` (out of range)
fail with handle-invalid. -/
theorem slab_get_remove_spec_witness :
    (Slab.get
        ({ head := 0, list := [{ next := 2, val := none }, { next := -1, val := some "y" }] } :
          Slab String) 1 = Except.ok "y") ∧
    (Slab.get
        ({ head := 0, list := [{ next := 2, val := none }, { next := -1, val := some "y" }] } :
          Slab String) 0 = Except.error PyErr.handleInvalid) ∧
    (Slab.remove
        ({ head := 0, list := [{ next := 2, val := none }, { next := -1, val := some "y" }] } :
          Slab String) 5 = Except.error PyErr.handleInvalid) := by
  have h1 := slab_get_remove_spec
    ({ head := 0, list := [{ next := 2, val := none }, { next := -1, val := some "y" }] } :
      Slab String) 1
  have h0 := slab_get_remove_spec
    ({ head := 0, list := [{ next := 2, val := none }, { next := -1, val := some "y" }] } :
      Slab String) 0
  have h5 := slab_get_remove_spec
    ({ head := 0, list := [{ next := 2, val := none }, { next := -1, val := some "y" }] } :
      Slab String) 5
  refine ⟨(h1.1 "y").mpr ⟨{ next := -1, val := some "y" }, by rfl, by rfl, by rfl⟩, ?_, ?_⟩
  · exact h0.2.1.mpr (Or.inr ⟨{ next := 2, val := none }, by rfl, by decide⟩)
  · exact h5.2.2.1.mpr (h5.2.1.mpr (Or.inl (by decide)))

/-- C9: handle-table operations are atomic on error.  `get` executes no
assignment (its embedding is a pure function of the table), and a
`remove` that fails — which happens exactly when its internal `get`
fails, with the same error — leaves the table state (entries and
free-list head) exactly as it was. -/
theorem slab_error_atomicity {T : Type} (s : Slab T) (idx : Nat) :
    (∀ e : PyErr, s.remove idx = Except.error e ↔ s.get idx = Except.error e) ∧
    (∀ e : PyErr, s.remove idx = Except.error e → s.removeRun idx = s) := by
  refine ⟨fun e => Slab.remove_err_iff s idx e, fun e he => ?_⟩
  unfold Slab.removeRun
  rw [he]

/-- Witness for C9: removing index 0 of a table whose slot 0 is free
fails and leaves the table unchanged. -/
theorem slab_error_atomicity_witness :
    (Slab.remove ({ head := 0, list := [{ next := 1, val := none }] } : Slab String) 0 =
      Except.error PyErr.handleInvalid) ∧
    (Slab.removeRun ({ head := 0, list := [{ next := 1, val := none }] } : Slab String) 0 =
      { head := 0, list := [{ next := 1, val := none }] }) := by
  have h := slab_error_atomicity
    ({ head := 0, list := [{ next := 1, val := none }] } : Slab String) 0
  have h1 : Slab.remove ({ head := 0, list := [{ next := 1, val := none }] } : Slab String) 0 =
      Except.error PyErr.handleInvalid :=
    (h.1 PyErr.handleInvalid).mpr (by rfl)
  exact ⟨h1, h.2 PyErr.handleInvalid h1⟩

/-- C10: in every table state reachable from the empty table, the head
is between 0 and the length; every slot with `next = -1` holds a value
(so each slot is either occupied or free); the free slots are exactly
the slots on the duplicate-free next-chain from `head`, which terminates
at the current length; and consequently `insert` always succeeds,
returning either a freshly appended index or a free slot — never
overwriting an occupied one. -/
theorem slab_reachable_invariant {T : Type} (s : Slab T) (h : Reach s) :
    (0 ≤ s.head ∧ s.head ≤ (s.list.length : Int)) ∧
    (∀ (j : Nat) (e : SlabEntry T), s.list[j]? = some e → e.next = -1 → ∃ v, e.val = some v) ∧
    (∃ c : List Nat, c.Nodup ∧ IsFreeChain s.list s.head c ∧
      ∀ (j : Nat) (e : SlabEntry T), s.list[j]? = some e → (e.next ≠ -1 ↔ j ∈ c)) ∧
    (∀ v : T, ∃ (s' : Slab T) (i : Int),
      s.insert v = some (s', i) ∧
      (i = (s.list.length : Int) ∨
        (0 ≤ i ∧ i < (s.list.length : Int) ∧
          ∃ e : SlabEntry T, s.list[i.toNat]? = some e ∧ e.next ≠ -1 ∧ e.val = none))) := by
  have hinv := reach_slabInv s h
  obtain ⟨c, hnd, hchain, hocc⟩ := hinv
  refine ⟨⟨hchain.head_nonneg, hchain.head_le⟩, ?_, ?_, ?_⟩
  · intro j e hj hnext
    by_cases hjc : j ∈ c
    · obtain ⟨e2, he2, hn2, -⟩ := IsFreeChain.mem_free c s.list s.head j hchain hjc
      rw [hj] at he2
      cases he2
      exact absurd hnext hn2
    · exact ((hocc j e hj).mpr hjc).2
  · refine ⟨c, hnd, hchain, ?_⟩
    intro j e hj
    constructor
    · intro hnext
      by_contra hjc
      exact hnext ((hocc j e hj).mpr hjc).1
    · intro hjc
      obtain ⟨e2, he2, hn2, -⟩ := IsFreeChain.mem_free c s.list s.head j hchain hjc
      rw [hj] at he2
      cases he2
      exact hn2
  · intro v
    obtain ⟨s', i, hins, -, hcons⟩ := slabInv_insert s v ⟨c, hnd, hchain, hocc⟩
    exact ⟨s', i, hins, hcons⟩

/-- Witness for C10: the table after inserting "x" into the empty table
is reachable and satisfies the invariant; in particular its head is 1 =
its length. -/
theorem slab_reachable_invariant_witness :
    Reach ({ head := 1, list := [{ next := -1, val := some "x" }] } : Slab String) ∧
    (0 ≤ ({ head := 1, list := [{ next := -1, val := some "x" }] } : Slab String).head ∧
      ({ head := 1, list := [{ next := -1, val := some "x" }] } : Slab String).head ≤
        (({ head := 1, list := [{ next := -1, val := some "x" }] } : Slab String).list.length : Int)) := by
  have hr : Reach ({ head := 1, list := [{ next := -1, val := some "x" }] } : Slab String) :=
    Reach.insert Reach.empty (by rfl)
  exact ⟨hr, (slab_reachable_invariant _ hr).1⟩

/-! ### Byte-level memory lemmas -/

theorem encodeLE_length (e : Nat) : ∀ v : Nat, (encodeLE e v).length = e := by
  induction e with
  | zero => intro v; rfl
  | succ n ih => intro v; simp [encodeLE, ih]

theorem decodeLE_encodeLE (e : Nat) : ∀ v : Nat, v < 256 ^ e → decodeLE (encodeLE e v) = v := by
  induction e with
  | zero =>
    intro v hv
    simp only [pow_zero, Nat.lt_one_iff] at hv
    subst hv
    rfl
  | succ n ih =>
    intro v hv
    have hdiv : v / 256 < 256 ^ n := by
      rw [Nat.div_lt_iff_lt_mul (by norm_num)]
      calc v < 256 ^ (n + 1) := hv
        _ = 256 ^ n * 256 := by ring
    simp only [encodeLE, decodeLE, ih (v / 256) hdiv]
    omega

theorem setSlice_length (mem : List Nat) (s : Nat) (xs : List Nat)
    (h : s + xs.length ≤ mem.length) : (setSlice mem s xs).length = mem.length := by
  simp only [setSlice, List.length_append, List.length_take, List.length_drop]
  omega

theorem getElem?_setSlice_outside (mem : List Nat) (s : Nat) (xs : List Nat) (j : Nat)
    (h : s + xs.length ≤ mem.length) (hj : j < s ∨ s + xs.length ≤ j) :
    (setSlice mem s xs)[j]? = mem[j]? := by
  have hs : s ≤ mem.length := by omega
  have htake : (mem.take s).length = s := by
    simp [List.length_take]
    omega
  rcases hj with hj | hj
  · simp only [setSlice, List.append_assoc]
    rw [List.getElem?_append, if_pos (by omega : j < (mem.take s).length)]
    rw [List.getElem?_take, if_pos hj]
  · simp only [setSlice, List.append_assoc]
    rw [List.getElem?_append, if_neg (by omega)]
    rw [List.getElem?_append, if_neg (by omega)]
    rw [htake]
    rw [List.getElem?_drop]
    congr 1
    omega

theorem getSlice_setSlice (mem : List Nat) (s : Nat) (xs : List Nat) (k m : Nat)
    (hs : s ≤ mem.length) (hkm : k + m ≤ xs.length) :
    getSlice (setSlice mem s xs) (s + k) m = (xs.drop k).take m := by
  have htake : (mem.take s).length = s := by
    simp [List.length_take]
    omega
  simp only [getSlice, setSlice, List.append_assoc]
  rw [List.drop_append_eq_append_drop]
  rw [htake]
  have h1 : s + k - s = k := by omega
  have h2 : (mem.take s).drop (s + k) = [] := by
    apply List.drop_eq_nil_of_le
    omega
  rw [h1, h2, List.nil_append]
  rw [List.drop_append_eq_append_drop]
  have h3 : (xs.drop k).length = xs.length - k := by simp
  rw [List.take_append_eq_append_take]
  have h4 : (xs.drop k).take m = (xs.drop k).take m := rfl
  have h5 : m - (xs.drop k).length = 0 := by omega
  rw [h3]
  have h6 : xs.length - k ≥ m := by omega
  rw [show m - (xs.length - k) = 0 from by omega]
  simp

theorem flatten_map_chunk (e : Nat) (f : Nat → List Nat) (hf : ∀ x, (f x).length = e) :
    ∀ (l : List Nat) (i : Nat) (hi : i < l.length),
      (((l.map f).flatten.drop (i * e)).take e) = f (l.get ⟨i, hi⟩) := by
  intro l
  induction l with
  | nil => intro i hi; cases hi
  | cons x xs ih =>
    intro i hi
    cases i with
    | zero =>
      simp only [List.map_cons, List.flatten_cons, Nat.zero_mul, List.drop_zero]
      rw [List.take_append_eq_append_take]
      rw [hf x]
      simp [List.take_of_length_le (le_of_eq (hf x))]
    | succ n =>
      have hn : n < xs.length := by
        simp only [List.length_cons] at hi
        omega
      simp only [List.map_cons, List.flatten_cons]
      rw [List.drop_append_eq_append_drop]
      have h1 : (x :: xs).get ⟨n + 1, hi⟩ = xs.get ⟨n, hn⟩ := rfl
      rw [hf x]
      have h2 : ((n + 1) * e) - e = n * e := by ring_nf; omega
      have h3 : (f x).drop ((n + 1) * e) = [] := by
        apply List.drop_eq_nil_of_le
        rw [hf x]
        nlinarith
      rw [h2, h3, List.nil_append, h1]
      exact ih n hn

theorem flatten_map_length (e : Nat) (f : Nat → List Nat) (hf : ∀ x, (f x).length = e)
    (l : List Nat) : (l.map f).flatten.length = l.length * e := by
  induction l with
  | nil => simp
  | cons x xs ih =>
    simp only [List.map_cons, List.flatten_cons, List.length_append, ih, hf x,
      List.length_cons]
    ring

/-! ### Claim theorems: memory intrinsics -/

/-- C3: every `_store` and `_load` is bounds-checked before the access.
With view-element size `e` and address `ptr = (base & 0xffffffff) + offset`,
whenever `ptr + e` exceeds the memory extent both intrinsics raise the
bounds error and return no memory access (the store yields no new
memory, the load no value); otherwise the access proceeds at the
computed element address `(ptr / e) * e`, and the executed store stays
inside the memory: the length is preserved and every byte outside the
accessed element is untouched. -/
theorem memory_access_bounds_checked (e : Nat) (mem : List Nat) (base offset val : Nat)
    (_he : 0 < e) :
    (base % 2 ^ 32 + offset + e > mem.length →
      pyStore e mem base offset val = Except.error PyErr.bounds ∧
      pyLoad e mem base offset = Except.error PyErr.bounds) ∧
    (base % 2 ^ 32 + offset + e ≤ mem.length →
      pyStore e mem base offset val =
        Except.ok (setSlice mem ((base % 2 ^ 32 + offset) / e * e) (encodeLE e val)) ∧
      pyLoad e mem base offset =
        Except.ok (decodeLE (getSlice mem ((base % 2 ^ 32 + offset) / e * e) e)) ∧
      (setSlice mem ((base % 2 ^ 32 + offset) / e * e) (encodeLE e val)).length = mem.length ∧
      ∀ j : Nat,
        (j < (base % 2 ^ 32 + offset) / e * e ∨ (base % 2 ^ 32 + offset) / e * e + e ≤ j) →
        (setSlice mem ((base % 2 ^ 32 + offset) / e * e) (encodeLE e val))[j]? = mem[j]?) := by
  have hdm : (base % 2 ^ 32 + offset) / e * e ≤ base % 2 ^ 32 + offset :=
    Nat.div_mul_le_self _ _
  have helen : (encodeLE e val).length = e := encodeLE_length e val
  constructor
  · intro hout
    constructor
    · simp only [pyStore]
      rw [if_pos (by omega)]
    · simp only [pyLoad]
      rw [if_pos (by omega)]
  · intro hin
    have hfit : (base % 2 ^ 32 + offset) / e * e + (encodeLE e val).length ≤ mem.length := by
      omega
    refine ⟨?_, ?_, setSlice_length mem _ _ hfit, fun j hj => getElem?_setSlice_outside mem _ _ j hfit (by omega)⟩
    · simp only [pyStore]
      rw [if_neg (by omega)]
      simp [viewWrite, setSlice]
    · simp only [pyLoad]
      rw [if_neg (by omega)]

/-- Witness for C3: with 4-byte elements on an 8-byte memory, an access
at address 6 raises the bounds error while an access at address 4
succeeds. -/
theorem memory_access_bounds_checked_witness :
    (pyStore 4 [0, 0, 0, 0, 0, 0, 0, 0] 0 6 99 = Except.error PyErr.bounds ∧
     pyLoad 4 [0, 0, 0, 0, 0, 0, 0, 0] 0 6 = Except.error PyErr.bounds) ∧
    pyStore 4 [0, 0, 0, 0, 0, 0, 0, 0] 0 4 99 =
      Except.ok (setSlice [0, 0, 0, 0, 0, 0, 0, 0] ((0 % 2 ^ 32 + 4) / 4 * 4) (encodeLE 4 99)) := by
  have h1 := memory_access_bounds_checked 4 [0, 0, 0, 0, 0, 0, 0, 0] 0 6 99 (by decide)
  have h2 := memory_access_bounds_checked 4 [0, 0, 0, 0, 0, 0, 0, 0] 0 4 99 (by decide)
  exact ⟨h1.1 (by decide), (h2.2 (by decide)).1⟩

/-- C8: canonical list round-trip.  For an all-bits-valid element type
of size `e` (every element value fits its `e` bytes), lowering a native
sequence into memory and lifting the returned (pointer, length) pair
from the resulting memory yields the original sequence, for any length
(including 0) and any allocator-returned pointer accepted by the bounds
check. -/
theorem list_canon_roundtrip (e : Nat) (l : List Nat) (ptr0 : Nat) (mem mem' : List Nat)
    (p n : Nat) (he : 0 < e) (hvals : ∀ x ∈ l, x < 256 ^ e) (hlen : l.length < 2 ^ 32)
    (hlow : listCanonLower e l ptr0 mem = Except.ok (mem', p, n)) :
    listCanonLift e p n mem' = Except.ok l := by
  simp only [listCanonLower] at hlow
  by_cases hb : ptr0 % 2 ^ 32 + e * l.length > mem.length
  · rw [if_pos hb] at hlow
    cases hlow
  · rw [if_neg hb] at hlow
    push_neg at hb
    simp only [Except.ok.injEq, Prod.mk.injEq] at hlow
    obtain ⟨hmem', hp, hn⟩ := hlow
    subst hp
    subst hn
    subst hmem'
    set ptr := ptr0 % 2 ^ 32 with hptr
    have hplt : ptr < 2 ^ 32 := Nat.mod_lt _ (by norm_num)
    have hpm : ptr % 2 ^ 32 = ptr := Nat.mod_eq_of_lt hplt
    have hnm : l.length % 2 ^ 32 = l.length := Nat.mod_eq_of_lt hlen
    have hblen : ((l.map (encodeLE e)).flatten).length = l.length * e :=
      flatten_map_length e (encodeLE e) (encodeLE_length e) l
    have hs : ptr / e * e ≤ ptr := Nat.div_mul_le_self _ _
    have hcomm : e * l.length = l.length * e := Nat.mul_comm e l.length
    have hfit : ptr / e * e + ((l.map (encodeLE e)).flatten).length ≤ mem.length := by
      omega
    have hlen' : (viewWrite e mem (ptr / e) l).length = mem.length := by
      simp only [viewWrite]
      exact setSlice_length mem _ _ hfit
    simp only [listCanonLift, hpm, hnm]
    rw [if_neg (by omega)]
    congr 1
    apply List.ext_getElem
    · simp [viewRead]
    · intro i hi hli
      simp only [viewRead, List.getElem_map, List.getElem_range]
      have hie : (ptr / e + i) * e = ptr / e * e + i * e := by ring
      rw [hie]
      simp only [viewWrite]
      have hkm : i * e + e ≤ ((l.map (encodeLE e)).flatten).length := by
        rw [hblen]
        have hi' : i < l.length := by
          simpa [viewRead] using hi
        nlinarith
      rw [getSlice_setSlice mem _ _ (i * e) e (by omega) hkm]
      have hi' : i < l.length := by
        simpa [viewRead] using hi
      have hchunk := flatten_map_chunk e (encodeLE e) (encodeLE_length e) l i hi'
      rw [hchunk]
      rw [decodeLE_encodeLE e _ (hvals _ (List.get_mem l i hi'))]
      simp

/-- Witness for C8: lowering [7, 8] with 1-byte elements at pointer 1
into a 4-byte memory writes [0, 7, 8, 0]; lifting pointer 1, length 2
recovers [7, 8]. -/
theorem list_canon_roundtrip_witness :
    listCanonLower 1 [7, 8] 1 [0, 0, 0, 0] = Except.ok ([0, 7, 8, 0], 1, 2) ∧
    listCanonLift 1 1 2 [0, 7, 8, 0] = Except.ok [7, 8] := by
  refine ⟨by rfl, ?_⟩
  exact list_canon_roundtrip 1 [7, 8] 1 [0, 0, 0, 0] [0, 7, 8, 0] 1 2 (by decide)
    (by decide) (by decide) (by rfl)

/-! ### Claim theorems: scalar validation and dispatch -/

/-- C4: lifting a char from the 32-bit integer `i` succeeds, producing
the Unicode scalar value `i`, if and only if `i ≤ 0x10FFFF` and `i` lies
outside the surrogate range [0xD800, 0xDFFF]; every other input fails
with the invalid-character error. -/
theorem char_lift_spec (i : Nat) :
    (validateGuestChar i = Except.ok i ↔
      i ≤ 0x10ffff ∧ ¬ (0xd800 ≤ i ∧ i ≤ 0xdfff)) ∧
    (¬ (i ≤ 0x10ffff ∧ ¬ (0xd800 ≤ i ∧ i ≤ 0xdfff)) →
      validateGuestChar i = Except.error PyErr.invalidChar) := by
  unfold validateGuestChar
  by_cases h : i > 0x10ffff ∨ (i ≥ 0xd800 ∧ i ≤ 0xdfff)
  · rw [if_pos h]
    constructor
    · constructor
      · intro hc
        cases hc
      · intro hc
        exfalso
        omega
    · intro _
      rfl
  · rw [if_neg h]
    push_neg at h
    constructor
    · constructor
      · intro _
        omega
      · intro _
        rfl
    · intro hc
      exfalso
      omega

/-- Witness for C4: lifting 0x10FFFF succeeds with scalar value
0x10FFFF; lifting 0xD800 and 0x110000 fails with the invalid-character
error. -/
theorem char_lift_spec_witness :
    validateGuestChar 0x10ffff = Except.ok 0x10ffff ∧
    validateGuestChar 0xd800 = Except.error PyErr.invalidChar ∧
    validateGuestChar 0x110000 = Except.error PyErr.invalidChar := by
  refine ⟨(char_lift_spec 0x10ffff).1.mpr (by omega), ?_, ?_⟩
  · exact (char_lift_spec 0xd800).2 (by omega)
  · exact (char_lift_spec 0x110000).2 (by omega)

theorem tryFromRange_spec (lo hi x : Int) :
    (tryFromRange lo hi x = Except.ok x ↔ lo ≤ x ∧ x ≤ hi) ∧
    (¬ (lo ≤ x ∧ x ≤ hi) → tryFromRange lo hi x = Except.error RtErr.badInt) ∧
    (∀ v : Int, tryFromRange lo hi x = Except.ok v → v = x) := by
  unfold tryFromRange
  by_cases h : lo ≤ x ∧ x ≤ hi
  · rw [if_pos h]
    refine ⟨⟨fun _ => h, fun _ => rfl⟩, fun hc => absurd h hc, fun v hv => ?_⟩
    cases hv
    rfl
  · rw [if_neg h]
    refine ⟨⟨fun hc => ?_, fun hc => absurd hc h⟩, fun _ => rfl, fun v hv => ?_⟩
    · cases hc
    · cases hv

/-- C5: every narrowing conversion from a 32-bit wasm integer to an
8-bit or 16-bit destination is range-checked: the conversion returns the
source value unchanged exactly when it fits the destination range and
fails with an integer-range error otherwise, never silently truncating;
likewise the emitted Python `_clamp` intrinsic. -/
theorem narrowing_checked (x i lo hi : Int) :
    ((u8FromI32 x = Except.ok x ↔ 0 ≤ x ∧ x ≤ 255) ∧
      (¬ (0 ≤ x ∧ x ≤ 255) → u8FromI32 x = Except.error RtErr.badInt) ∧
      ∀ v : Int, u8FromI32 x = Except.ok v → v = x) ∧
    ((s8FromI32 x = Except.ok x ↔ -128 ≤ x ∧ x ≤ 127) ∧
      (¬ (-128 ≤ x ∧ x ≤ 127) → s8FromI32 x = Except.error RtErr.badInt) ∧
      ∀ v : Int, s8FromI32 x = Except.ok v → v = x) ∧
    ((u16FromI32 x = Except.ok x ↔ 0 ≤ x ∧ x ≤ 65535) ∧
      (¬ (0 ≤ x ∧ x ≤ 65535) → u16FromI32 x = Except.error RtErr.badInt) ∧
      ∀ v : Int, u16FromI32 x = Except.ok v → v = x) ∧
    ((s16FromI32 x = Except.ok x ↔ -32768 ≤ x ∧ x ≤ 32767) ∧
      (¬ (-32768 ≤ x ∧ x ≤ 32767) → s16FromI32 x = Except.error RtErr.badInt) ∧
      ∀ v : Int, s16FromI32 x = Except.ok v → v = x) ∧
    ((pyClamp i lo hi = Except.ok i ↔ lo ≤ i ∧ i ≤ hi) ∧
      (¬ (lo ≤ i ∧ i ≤ hi) → pyClamp i lo hi = Except.error PyErr.overflow)) := by
  refine ⟨tryFromRange_spec 0 255 x, tryFromRange_spec (-128) 127 x,
    tryFromRange_spec 0 65535 x, tryFromRange_spec (-32768) 32767 x, ?_, ?_⟩
  · unfold pyClamp
    by_cases h : i < lo ∨ i > hi
    · rw [if_pos h]
      constructor
      · intro hc
        cases hc
      · intro hc
        exfalso
        omega
    · rw [if_neg h]
      constructor
      · intro _
        omega
      · intro _
        rfl
  · intro hc
    unfold pyClamp
    rw [if_pos (by omega)]

/-- Witness for C5: converting 255 to an 8-bit unsigned value succeeds
returning 255; converting 256 fails with the integer-range error;
`_clamp` behaves identically for the u8 range. -/
theorem narrowing_checked_witness :
    u8FromI32 255 = Except.ok 255 ∧
    u8FromI32 256 = Except.error RtErr.badInt ∧
    pyClamp 255 0 255 = Except.ok 255 ∧
    pyClamp 256 0 255 = Except.error PyErr.overflow := by
  have h255 := narrowing_checked 255 255 0 255
  have h256 := narrowing_checked 256 256 0 255
  exact ⟨h255.1.1.mpr (by omega), h256.1.2.1 (by omega),
    h255.2.2.2.2.1.mpr (by omega), (h256.2.2.2.2).2 (by omega)⟩

/-- C2: lifting a variant-family discriminant `d` with `k` cases
executes exactly the case block matching `d` when `0 ≤ d < k` and fails
with the invalid-discriminant error for every `d ≥ k`; for
`expected<u32, unit>`, discriminant 0 lifts to the success case holding
the lifted payload, discriminant 1 to the failure case regardless of the
payload operand, and any other discriminant fails with
invalid-discriminant. -/
theorem variant_lift_dispatch {Op β : Type} (cs : List (Op → β)) (d : Int) (p : Op) :
    (∀ f : Op → β, cs[d.toNat]? = some f → 0 ≤ d →
      variantLift cs d p = Except.ok (f p)) ∧
    ((cs.length : Int) ≤ d → variantLift cs d p = Except.error RtErr.invalidVariant) ∧
    (∀ (pok : Int) (perr : Unit),
      expectedLift (fun x : Int => x) (fun _ : Unit => ()) 0 pok perr =
        Except.ok (Expected.ok pok) ∧
      expectedLift (fun x : Int => x) (fun _ : Unit => ()) 1 pok perr =
        Except.ok (Expected.err ()) ∧
      expectedLift (fun x : Int => x) (fun _ : Unit => ()) 2 pok perr =
        Except.error RtErr.invalidVariant) := by
  refine ⟨?_, ?_, fun pok perr => ⟨rfl, rfl, rfl⟩⟩
  · intro f hf hd
    have hlt : d.toNat < cs.length := by
      by_contra hc
      push_neg at hc
      rw [List.getElem?_eq_none hc] at hf
      cases hf
    unfold variantLift
    rw [dif_pos ⟨hd, hlt⟩]
    rw [List.getElem?_eq_getElem hlt] at hf
    simp only [Option.some.injEq] at hf
    simp [← hf]
  · intro hge
    have hlen : (0 : Int) ≤ (cs.length : Int) := by positivity
    unfold variantLift
    rw [dif_neg]
    intro hc
    obtain ⟨hd, hlt⟩ := hc
    have : ((d.toNat : Int)) = d := Int.toNat_of_nonneg hd
    omega

/-- Witness for C2: the spec's concrete `expected<u32, unit>` scenario —
discriminant 0 with payload 42 lifts to the success case holding 42,
discriminant 1 to the failure case, discriminant 2 fails — plus an
out-of-range variant discriminant failing on a two-case variant. -/
theorem variant_lift_dispatch_witness :
    expectedLift (fun x : Int => x) (fun _ : Unit => ()) 0 42 () =
      Except.ok (Expected.ok 42) ∧
    expectedLift (fun x : Int => x) (fun _ : Unit => ()) 1 42 () =
      Except.ok (Expected.err ()) ∧
    expectedLift (fun x : Int => x) (fun _ : Unit => ()) 2 42 () =
      Except.error RtErr.invalidVariant ∧
    variantLift [fun n : Int => n + 1, fun n : Int => n * 2] 0 5 = Except.ok 6 ∧
    variantLift [fun n : Int => n + 1, fun n : Int => n * 2] 3 5 =
      Except.error RtErr.invalidVariant := by
  have h := variant_lift_dispatch [fun n : Int => n + 1, fun n : Int => n * 2] 3 (5 : Int)
  have h0 := variant_lift_dispatch [fun n : Int => n + 1, fun n : Int => n * 2] 0 (5 : Int)
  have hexp := h.2.2 42 ()
  refine ⟨hexp.1, hexp.2.1, hexp.2.2, ?_, h.2.1 (by decide)⟩
  have := h0.1 (fun n : Int => n + 1) (by rfl) (by decide)
  simpa using this

/-- C7: host-failure routing is decided once at emission time from the
function's declared result type: under the custom-error configuration, a
function whose result is an `expected` whose error side names a declared
type definition is classified `CustomToError` (and a host failure is
then routed as an `Err` value of that declared channel), while every
other function is classified `CustomToTrap` (and a host failure then
becomes an unconditional trap); with the configuration off every
function is `Normal`. -/
theorem classify_fn_ret_spec (types : Nat → TypeDef) (result : WaiType) :
    (classify_fn_ret false types result = FunctionRet.normal) ∧
    (∀ (i : Nat) (ok : WaiType) (j : Nat) (n : String),
      result = WaiType.id i →
      (types i).kind = TypeDefKind.expected ok (WaiType.id j) →
      (types j).name = some n →
      classify_fn_ret true types result = FunctionRet.customToError ok n) ∧
    ((¬ ∃ (i : Nat) (ok : WaiType) (j : Nat) (n : String),
        result = WaiType.id i ∧
        (types i).kind = TypeDefKind.expected ok (WaiType.id j) ∧
        (types j).name = some n) →
      classify_fn_ret true types result = FunctionRet.customToTrap) ∧
    (∀ (V E H : Type) (conv : H → E) (hf : H) (v : V),
      routeToError conv (Except.error hf : Except H V) =
        CallResult.channel (Expected.err (conv hf)) ∧
      routeToError conv (Except.ok v : Except H V) =
        CallResult.channel (Expected.ok v) ∧
      routeToTrap (Except.error hf : Except H V) = (CallResult.trap : CallResult V E) ∧
      routeToTrap (Except.ok v : Except H V) = (CallResult.value v : CallResult V E)) := by
  refine ⟨by simp [classify_fn_ret], ?_, ?_, fun V E H conv hf v => ⟨rfl, rfl, rfl, rfl⟩⟩
  · intro i ok j n hres hk hn
    subst hres
    simp [classify_fn_ret, hk, hn]
  · intro hno
    unfold classify_fn_ret
    rw [if_neg (by decide)]
    cases result <;> try rfl
    case id i =>
      dsimp only
      cases hk : (types i).kind with
      | other => rfl
      | expected ok err =>
        dsimp only
        cases err <;> try rfl
        case id j =>
          dsimp only
          cases hn : (types j).name with
          | none => rfl
          | some n => exact absurd ⟨i, ok, j, n, rfl, hk, hn⟩ hno

/-- Witness for C7: with type 0 = `expected<u32, id 1>` and type 1 named
"my-error", a function returning `id 0` is classified `CustomToError`
with that name; a function returning `bool` is classified
`CustomToTrap`; with custom errors off the former is `Normal`; a host
failure routes to the channel or to a trap accordingly. -/
theorem classify_fn_ret_spec_witness :
    (classify_fn_ret true
        (fun k => if k = 0 then { kind := TypeDefKind.expected WaiType.u32 (WaiType.id 1),
                                  name := none }
                  else { kind := TypeDefKind.other, name := some "my-error" })
        (WaiType.id 0) =
      FunctionRet.customToError WaiType.u32 "my-error") ∧
    (classify_fn_ret true
        (fun k => if k = 0 then { kind := TypeDefKind.expected WaiType.u32 (WaiType.id 1),
                                  name := none }
                  else { kind := TypeDefKind.other, name := some "my-error" })
        WaiType.bool =
      FunctionRet.customToTrap) ∧
    (classify_fn_ret false
        (fun k => if k = 0 then { kind := TypeDefKind.expected WaiType.u32 (WaiType.id 1),
                                  name := none }
                  else { kind := TypeDefKind.other, name := some "my-error" })
        (WaiType.id 0) =
      FunctionRet.normal) ∧
    routeToError (fun s : String => s ++ "!") (Except.error "boom" : Except String Nat) =
      CallResult.channel (Expected.err "boom!") ∧
    routeToTrap (Except.error "boom" : Except String Nat) =
      (CallResult.trap : CallResult Nat String) := by
  have h0 := classify_fn_ret_spec
    (fun k => if k = 0 then { kind := TypeDefKind.expected WaiType.u32 (WaiType.id 1),
                              name := none }
              else { kind := TypeDefKind.other, name := some "my-error" })
    (WaiType.id 0)
  have hb := classify_fn_ret_spec
    (fun k => if k = 0 then { kind := TypeDefKind.expected WaiType.u32 (WaiType.id 1),
                              name := none }
              else { kind := TypeDefKind.other, name := some "my-error" })
    WaiType.bool
  refine ⟨h0.2.1 0 WaiType.u32 1 "my-error" rfl (by rfl) (by rfl), ?_, h0.1, ?_, ?_⟩
  · refine hb.2.2.1 ?_
    rintro ⟨i, ok, j, n, hres, -, -⟩
    cases hres
  · exact (h0.2.2.2 Nat String String (fun s => s ++ "!") "boom" 0).1
  · exact (hb.2.2.2 Nat String String (fun s => s ++ "!") "boom" 0).2.2.1

end Wai
